import Mathlib

/-!
Shallow embedding of `scripts/vcf_maker.py` (CSV → vCard 3.0 converter).
Strings are modelled as `List Char`; Python `None` as `Option`; a Python
runtime failure (an out-of-range index) as an `Option.none` result.
-/

namespace VcfMaker

/-- Python strings, modelled as lists of characters. -/
abbrev Str := List Char

/-- Whitespace characters stripped by Python's `str.strip()` / split by
`str.split()` (ASCII subset). -/
def pws (c : Char) : Bool :=
  c = ' ' || c = '\t' || c = '\n' || c = '\r' || c = '\x0b' || c = '\x0c'

/-- Python `str.strip()`: drop whitespace from both ends. -/
def stripL (l : Str) : Str :=
  ((l.dropWhile pws).reverse.dropWhile pws).reverse

/-- Python `str.replace(a, b)` for a single-character pattern `a`. -/
def repC (a : Char) (b : Str) : Str → Str
  | [] => []
  | c :: rest => (if c = a then b else [c]) ++ repC a b rest

/-- Embeds `escape_vcard_value` (vcf_maker.py lines 10-16): `None` yields
`""`; otherwise replace backslash, then CR and LF, then comma and
semicolon, and strip the result. -/
def escape_vcard_value : Option Str → Str
  | none => []
  | some v =>
      stripL (repC ';' ("\\;".toList) (repC ',' ("\\,".toList)
        (repC '\n' (" ".toList) (repC '\r' (" ".toList)
          (repC '\\' ("\\\\".toList) v)))))

/-- Characters kept by `sanitize_phone`'s regular expression `[^0-9+]+ -> ""`:
ASCII digits and the plus sign. -/
def keepPhone (c : Char) : Bool := c.isDigit || c = '+'

/-- Embeds `sanitize_phone` (lines 19-25): `None` yields `""`; otherwise
strip, then delete every character that is not an ASCII digit or `+`
(the `re.sub` deleting maximal runs equals a character filter). -/
def sanitize_phone : Option Str → Str
  | none => []
  | some p => (stripL p).filter keepPhone

/-- Accumulator-based splitter behind `splitWs` (Python `str.split()`
with no argument: split on runs of whitespace, no empty tokens). -/
def splitWsAux : Str → Str → List Str
  | acc, [] => if acc = [] then [] else [acc.reverse]
  | acc, c :: rest =>
      if pws c then
        (if acc = [] then splitWsAux [] rest
         else acc.reverse :: splitWsAux [] rest)
      else splitWsAux (c :: acc) rest

/-- Python `full_name.split()`: tokens separated by whitespace runs. -/
def splitWs (l : Str) : List Str := splitWsAux [] l

/-- Python `sep.join(parts)`. -/
def joinSep (sep : Str) : List Str → Str
  | [] => []
  | [x] => x
  | x :: y :: rest => x ++ sep ++ joinSep sep (y :: rest)

/-- The f-string `f"{family};{given};{additional};;"` of line 41. -/
def nJoin (family given additional : Str) : Str :=
  family ++ (";".toList) ++ given ++ (";".toList) ++ additional ++ (";;".toList)

/-- Embeds `format_n_field` (lines 28-41).  The empty string returns the
literal `";;;;;"`; one token puts it in the `given` slot; otherwise the
first token is `given`, the last is `family`, and the middle tokens joined
by single spaces are `additional`.  A whitespace-only input reaches
`parts[0]` with `parts == []` in Python and raises `IndexError`; that
failure is modelled as `none`. -/
def format_n_field (full_name : Str) : Option Str :=
  if full_name = [] then some (";;;;;".toList)
  else
    let parts := splitWs full_name
    if parts.length = 1 then
      some (nJoin [] (parts.headD []) [])
    else
      match parts.head?, parts.getLast? with
      | some given, some family =>
          let additional :=
            if 2 < parts.length then joinSep (" ".toList) ((parts.drop 1).dropLast)
            else []
          some (nJoin family given additional)
      | _, _ => none

/-- A Python phone dict `{"number": ..., "label": ...}`; either key may be
missing (`none`). -/
structure PhoneEntry where
  number : Option Str
  label : Option Str
deriving DecidableEq

/-- Python `a or dflt` on an optional string: `None` and `""` are falsy. -/
def pyOr (a : Option Str) (dflt : Str) : Str :=
  match a with
  | none => dflt
  | some s => if s = [] then dflt else s

/-- Python `str.upper()` (ASCII). -/
def upperL (l : Str) : Str := l.map Char.toUpper

/-- Python `str.lower()` (ASCII). -/
def lowerL (l : Str) : Str := l.map Char.toLower

/-- The `for p in phones` loop of `format_vcard` (lines 49-55): skip
entries whose sanitized number is empty, otherwise emit a
`TEL;TYPE=<LABEL>:<number>` line with the label upper-cased, defaulting
to `CELL` when absent or empty. -/
def telLoop : List PhoneEntry → List Str
  | [] => []
  | p :: rest =>
      let num := sanitize_phone (some (p.number.getD []))
      if num = [] then telLoop rest
      else (("TEL;TYPE=".toList) ++ upperL (pyOr p.label ("CELL".toList))
              ++ (":".toList) ++ num) :: telLoop rest

/-- The `lines` list built by `format_vcard` (lines 44-56) before joining:
`BEGIN:VCARD`, `VERSION:3.0`, the escaped `FN`, the escaped joined `N`,
the `TEL` lines, and `"END:VCARD\n"`.  `none` when `format_n_field`
raises. -/
def vcardLines (fn : Str) (phones : List PhoneEntry) : Option (List Str) :=
  match format_n_field fn with
  | none => none
  | some nf =>
      some ((("BEGIN:VCARD".toList) :: ("VERSION:3.0".toList)
          :: (("FN:".toList) ++ escape_vcard_value (some fn))
          :: (("N:".toList) ++ escape_vcard_value (some nf))
          :: telLoop phones)
        ++ [("END:VCARD\n".toList)])

/-- Embeds `format_vcard` (lines 44-57): `"\n".join(lines)`. -/
def format_vcard (fn : Str) (phones : List PhoneEntry) : Option Str :=
  (vcardLines fn phones).map (joinSep ("\n".toList))

/-- The heuristic keyword dictionary `prefs` of `choose_field`
(lines 105-108): ordered keyword lists per field type; any other field
type yields the empty list (`prefs.get(field_type, [])`). -/
def prefs (field_type : Str) : List Str :=
  if field_type = ("name".toList) then
    [("name".toList), ("full_name".toList), ("fullname".toList), ("fn".toList),
     ("display_name".toList), ("given_name".toList)]
  else if field_type = ("phone".toList) then
    [("phone".toList), ("phone_number".toList), ("phone1".toList), ("mobile".toList),
     ("mobile_phone".toList), ("cell".toList), ("cellphone".toList)]
  else []

/-- The combined Python test `if desired:` / `if desired in headers:` of
lines 82-84: truthy (neither `None` nor empty) and present in `headers`. -/
def truthyIn (desired : Option Str) (headers : List Str) : Bool :=
  match desired with
  | none => false
  | some d => decide (d ≠ []) && decide (d ∈ headers)

/-- Embeds `choose_field` (lines 80-115) on its non-interactive path
(`sys.stdin.isatty()` false, so the prompt loop of lines 88-102 is never
entered).  If `desired` is truthy and a header, return it; otherwise scan
the keyword list, returning the first header whose lower-cased name equals
the current keyword; otherwise `headers[0]`, whose `IndexError` on an
empty header list is modelled as `none`. -/
def choose_field (headers : List Str) (desired : Option Str) (field_type : Str) :
    Option Str :=
  if truthyIn desired headers then desired
  else
    match (prefs field_type).findSome?
        (fun p => headers.find? (fun h => lowerL h == p)) with
    | some h => some h
    | none => headers.head?

/-- Rows as produced by `csv.DictReader`: an association list from column
name to raw cell value; `dict.get` is `List.lookup`. -/
abbrev Row := List (Str × Str)

/-- Python `row.get(k)`. -/
def rowGet (row : Row) (k : Str) : Option Str := row.lookup k

/-- The keyword arguments of `write_vcards_stream` that configure one
streaming pass (name column, phone columns, optional labels, name
prefix/postfix strings). -/
structure StreamCfg where
  nameField : Str
  phoneFields : List Str
  phoneLabels : Option (List Str)
  preTxt : Str
  postTxt : Str

/-- Line 158: `phone_labels = phone_labels or ["CELL"] * len(phone_fields)`
(`None` and the empty list are falsy). -/
def labelsOf (cfg : StreamCfg) : List Str :=
  match cfg.phoneLabels with
  | none => List.replicate cfg.phoneFields.length ("CELL".toList)
  | some l =>
      if l = [] then List.replicate cfg.phoneFields.length ("CELL".toList) else l

/-- The `for idx, pf in enumerate(phone_fields)` loop of lines 167-171,
carrying the running index. -/
def buildPhonesAux (cfg : StreamCfg) (row : Row) : Nat → List Str → List PhoneEntry
  | _, [] => []
  | idx, pf :: pfs =>
      let num := stripL ((rowGet row pf).getD [])
      if num = [] then buildPhonesAux cfg row (idx + 1) pfs
      else ⟨some num, some ((labelsOf cfg).getD idx ("CELL".toList))⟩
             :: buildPhonesAux cfg row (idx + 1) pfs

/-- The phone list a row contributes: trimmed non-empty values of the
configured phone columns, paired with their positional labels
(`phone_labels[idx] if idx < len(phone_labels) else "CELL"`). -/
def buildPhones (cfg : StreamCfg) (row : Row) : List PhoneEntry :=
  buildPhonesAux cfg row 0 cfg.phoneFields

/-- Lines 177-184: the parts list built from trimmed prefix (when the raw
prefix is truthy), the trimmed row name (when non-empty), and trimmed
postfix (when the raw postfix is truthy), joined by spaces and stripped. -/
def fullNameOf (cfg : StreamCfg) (name : Str) : Str :=
  let parts :=
    (if cfg.preTxt = [] then [] else [stripL cfg.preTxt]) ++
    (if name = [] then [] else [name]) ++
    (if cfg.postTxt = [] then [] else [stripL cfg.postTxt])
  stripL (joinSep (" ".toList) parts)

/-- Observable outcome of one streaming pass: the returned `written`
count, the bytes written to the output file, and the sequence of
`progress(i, total)` calls in order. -/
structure StreamResult where
  written : Nat
  output : Str
  events : List (Nat × Nat)
deriving DecidableEq

/-- The `for i, row in enumerate(reader, start=1)` loop of
`write_vcards_stream` (lines 161-188).  `cancel i` is the value
`stop_event.is_set()` returns at the top-of-loop check for row `i`;
a `break` yields the empty remainder.  `none` models an uncaught Python
exception inside the loop body. -/
def streamLoop (cancel : Nat → Bool) (cfg : StreamCfg) (total : Nat) :
    Nat → List Row → Option StreamResult
  | _, [] => some ⟨0, [], []⟩
  | i, row :: rest =>
      if cancel i then some ⟨0, [], []⟩
      else
        let name := stripL ((rowGet row cfg.nameField).getD [])
        let phones := buildPhones cfg row
        if phones = [] then
          match streamLoop cancel cfg total (i + 1) rest with
          | none => none
          | some r => some ⟨r.written, r.output, (i, total) :: r.events⟩
        else
          match format_vcard (fullNameOf cfg name) phones with
          | none => none
          | some blk =>
              match streamLoop cancel cfg total (i + 1) rest with
              | none => none
              | some r => some ⟨r.written + 1, blk ++ r.output, (i, total) :: r.events⟩

/-- Embeds `write_vcards_stream` (lines 148-189) for a source whose parsed
data rows are `rows`: `count_csv_rows` supplies `total = rows.length`, the
loop starts at row index 1. -/
def write_vcards_stream (cancel : Nat → Bool) (cfg : StreamCfg) (rows : List Row) :
    Option StreamResult :=
  streamLoop cancel cfg rows.length 1 rows

/-- Escape scanner: `true` when every occurrence of the special character
`sp` in the string is escaped, i.e. preceded by an odd run of backslashes.
The accumulator `even` is the parity of the backslash run immediately
before the current position (`true` = even, including zero). -/
def noUnescFrom (sp : Char) : Bool → Str → Bool
  | _, [] => true
  | even, c :: rest =>
      if c = '\\' then noUnescFrom sp (!even) rest
      else if c = sp then !even && noUnescFrom sp true rest
      else noUnescFrom sp true rest

/-- Single-pass escaping of one character, the intended reading of the
escape order of `escape_vcard_value`: backslash doubles, CR and LF become
a space, comma and semicolon gain a backslash, all other characters pass
through (inserted escape characters are never re-escaped). -/
def escChar (c : Char) : Str :=
  if c = '\\' then ("\\\\".toList)
  else if c = '\r' then (" ".toList)
  else if c = '\n' then (" ".toList)
  else if c = ',' then ("\\,".toList)
  else if c = ';' then ("\\;".toList)
  else [c]

/-- Single-pass escaping of a whole string. -/
def onePassEsc : Str → Str
  | [] => []
  | c :: rest => escChar c ++ onePassEsc rest

/-- Modelled from the claim's wording for the TEL lines: drop entries with
an empty sanitized number, map every other entry to
`TEL;TYPE=<LABEL>:<sanitized number>`, in list order. -/
def telSpec (phones : List PhoneEntry) : List Str :=
  phones.filterMap (fun p =>
    let num := sanitize_phone (some (p.number.getD []))
    if num = [] then none
    else some (("TEL;TYPE=".toList) ++ upperL (pyOr p.label ("CELL".toList))
                 ++ (":".toList) ++ num))

/-- Modelled from the claim's wording for C6: the fieldKind keyword lists,
restated from the claim text. -/
def claimKeywords (kind : Str) : List Str :=
  if kind = ("name".toList) then
    [("name".toList), ("full_name".toList), ("fullname".toList), ("fn".toList),
     ("display_name".toList), ("given_name".toList)]
  else if kind = ("phone".toList) then
    [("phone".toList), ("phone_number".toList), ("phone1".toList), ("mobile".toList),
     ("mobile_phone".toList), ("cell".toList), ("cellphone".toList)]
  else []

/-- Modelled from the claim's wording for C6, tier (c): scan the keyword
list in order, returning the first column whose lower-cased name equals
the current keyword. -/
def heurScan (headers : List Str) : List Str → Option Str
  | [] => none
  | kw :: kws =>
      match headers.find? (fun h => lowerL h == kw) with
      | some h => some h
      | none => heurScan headers kws

/-- Modelled from the claim's wording for C6: tier (a) exact requested
match, tier (c) keyword heuristics, tier (d) first entry of the column
list (`none` when there is none). -/
def resolveFieldSpec (headers : List Str) (requested : Option Str) (kind : Str) :
    Option Str :=
  match requested with
  | some d =>
      if d ≠ [] ∧ d ∈ headers then some d
      else
        match heurScan headers (claimKeywords kind) with
        | some h => some h
        | none => headers.head?
  | none =>
      match heurScan headers (claimKeywords kind) with
      | some h => some h
      | none => headers.head?

/-- Rows processed by the streaming loop before the first true
cancellation check: the longest prefix of `rows` whose top-of-loop checks
(at consecutive indices from `i`) all return false. -/
def cfPfx (cancel : Nat → Bool) : Nat → List Row → List Row
  | _, [] => []
  | i, r :: rs => if cancel i then [] else r :: cfPfx cancel (i + 1) rs

/-- A row qualifies (produces a record) when its configured phone columns
yield at least one trimmed non-empty value. -/
def qual (cfg : StreamCfg) (row : Row) : Bool := !(buildPhones cfg row).isEmpty

/-- The vCard block a qualifying row contributes to the output file. -/
def rowBlock (cfg : StreamCfg) (row : Row) : Str :=
  (format_vcard (fullNameOf cfg (stripL ((rowGet row cfg.nameField).getD [])))
    (buildPhones cfg row)).getD []

/-- The progress calls `(rowIndex, total)` for consecutively indexed rows. -/
def evtsFrom (total : Nat) : Nat → List Row → List (Nat × Nat)
  | _, [] => []
  | i, _ :: rs => (i, total) :: evtsFrom total (i + 1) rs

lemma repC_append (a : Char) (b x y : Str) :
    repC a b (x ++ y) = repC a b x ++ repC a b y := by
  induction x with
  | nil => simp [repC]
  | cons c t ih => simp [repC, ih]

lemma escChain_single (c : Char) :
    repC ';' ("\\;".toList) (repC ',' ("\\,".toList) (repC '\n' (" ".toList)
      (repC '\r' (" ".toList) (repC '\\' ("\\\\".toList) [c])))) = escChar c := by
  by_cases h1 : c = '\\'
  · subst h1; decide
  · by_cases h2 : c = '\r'
    · subst h2; decide
    · by_cases h3 : c = '\n'
      · subst h3; decide
      · by_cases h4 : c = ','
        · subst h4; decide
        · by_cases h5 : c = ';'
          · subst h5; decide
          · simp [repC, escChar, h1, h2, h3, h4, h5]

lemma esc_onePass (v : Str) :
    repC ';' ("\\;".toList) (repC ',' ("\\,".toList) (repC '\n' (" ".toList)
      (repC '\r' (" ".toList) (repC '\\' ("\\\\".toList) v)))) = onePassEsc v := by
  induction v with
  | nil => rfl
  | cons c t ih =>
      have hsplit : repC '\\' ("\\\\".toList) (c :: t)
          = repC '\\' ("\\\\".toList) [c] ++ repC '\\' ("\\\\".toList) t := by
        simp [repC]
      rw [show (c :: t) = [c] ++ t by rfl]
      simp only [repC_append]
      rw [escChain_single, ih]
      simp [onePassEsc]

/-- Sequential replacement inside `escape_vcard_value` equals the one-pass
per-character escape, followed by the trim: the escape characters inserted
by a later step are never re-escaped. -/
lemma escape_eq_onePass (v : Str) :
    escape_vcard_value (some v) = stripL (onePassEsc v) := by
  simp only [escape_vcard_value, esc_onePass]

lemma noUnesc_escChar (sp : Char) (hsp : sp = ';' ∨ sp = ',') (c : Char) (l : Str) :
    noUnescFrom sp true (escChar c ++ l) = noUnescFrom sp true l := by
  rcases hsp with rfl | rfl <;>
  · by_cases h1 : c = '\\'
    · subst h1; simp [escChar, noUnescFrom]
    · by_cases h2 : c = '\r'
      · subst h2; simp [escChar, noUnescFrom]
      · by_cases h3 : c = '\n'
        · subst h3; simp [escChar, noUnescFrom]
        · by_cases h4 : c = ','
          · subst h4; simp [escChar, noUnescFrom]
          · by_cases h5 : c = ';'
            · subst h5; simp [escChar, noUnescFrom]
            · simp [escChar, noUnescFrom, h1, h2, h3, h4, h5]

lemma noUnesc_onePass (sp : Char) (hsp : sp = ';' ∨ sp = ',') (s : Str) :
    noUnescFrom sp true (onePassEsc s) = true := by
  induction s with
  | nil => rfl
  | cons c t ih => rw [onePassEsc, noUnesc_escChar sp hsp]; exact ih

lemma noUnesc_append (sp : Char) (l1 l2 : Str) :
    ∀ e, noUnescFrom sp e (l1 ++ l2) = true → noUnescFrom sp e l1 = true := by
  induction l1 with
  | nil => intro e _; rfl
  | cons c t ih =>
      intro e h
      rw [List.cons_append, noUnescFrom] at h
      rw [noUnescFrom]
      by_cases h1 : c = '\\'
      · rw [if_pos h1] at h ⊢
        exact ih _ h
      · rw [if_neg h1] at h ⊢
        by_cases h2 : c = sp
        · rw [if_pos h2] at h ⊢
          rw [Bool.and_eq_true] at h ⊢
          exact ⟨h.1, ih _ h.2⟩
        · rw [if_neg h2] at h ⊢
          exact ih _ h

lemma dropWhile_head_false :
    ∀ (l : Str) (a : Char) (t : Str), l.dropWhile pws = a :: t → pws a = false := by
  intro l
  induction l with
  | nil => intro a t h; simp [List.dropWhile] at h
  | cons c r ih =>
      intro a t h
      by_cases hw : pws c
      · rw [List.dropWhile_cons_of_pos hw] at h; exact ih a t h
      · rw [List.dropWhile_cons_of_neg hw] at h
        cases h
        simpa using hw

lemma dropWhile_is_tail (l : Str) : ∃ s, l = s ++ l.dropWhile pws := by
  induction l with
  | nil => exact ⟨[], rfl⟩
  | cons c r ih =>
      by_cases hw : pws c
      · obtain ⟨s, hs⟩ := ih
        exact ⟨c :: s, by rw [List.dropWhile_cons_of_pos hw]; simpa using hs⟩
      · exact ⟨[], by rw [List.dropWhile_cons_of_neg hw]; simp⟩

lemma pws_not_special (sp c : Char) (hsp : sp = ';' ∨ sp = ',') (hw : pws c = true) :
    c ≠ '\\' ∧ c ≠ sp := by
  have hcases : c = ' ' ∨ c = '\t' ∨ c = '\n' ∨ c = '\r' ∨ c = '\x0b' ∨ c = '\x0c' := by
    simp only [pws, Bool.or_eq_true, decide_eq_true_eq] at hw
    tauto
  rcases hsp with rfl | rfl <;>
    rcases hcases with rfl | rfl | rfl | rfl | rfl | rfl <;> exact ⟨by decide, by decide⟩

lemma noUnesc_dropWhile (sp : Char) (hsp : sp = ';' ∨ sp = ',') (l : Str)
    (h : noUnescFrom sp true l = true) :
    noUnescFrom sp true (l.dropWhile pws) = true := by
  induction l with
  | nil => exact h
  | cons c r ih =>
      by_cases hw : pws c
      · rw [List.dropWhile_cons_of_pos hw]
        obtain ⟨hc1, hc2⟩ := pws_not_special sp c hsp hw
        rw [noUnescFrom, if_neg hc1, if_neg hc2] at h
        exact ih h
      · rw [List.dropWhile_cons_of_neg hw]
        exact h

lemma noUnesc_stripL (sp : Char) (hsp : sp = ';' ∨ sp = ',') (l : Str)
    (h : noUnescFrom sp true l = true) :
    noUnescFrom sp true (stripL l) = true := by
  have hm : noUnescFrom sp true (l.dropWhile pws) = true := noUnesc_dropWhile sp hsp l h
  obtain ⟨s, hs⟩ := dropWhile_is_tail (l.dropWhile pws).reverse
  have hdec : l.dropWhile pws = stripL l ++ s.reverse := by
    conv_lhs => rw [← List.reverse_reverse (l.dropWhile pws), hs]
    rw [List.reverse_append]
    rfl
  rw [hdec] at hm
  exact noUnesc_append sp _ _ true hm

/-- In the output of `escape_vcard_value`, every semicolon and every comma
is escaped: it is preceded by an odd run of backslashes. -/
lemma noUnesc_escape (sp : Char) (hsp : sp = ';' ∨ sp = ',') (v : Str) :
    noUnescFrom sp true (escape_vcard_value (some v)) = true := by
  rw [escape_eq_onePass]
  exact noUnesc_stripL sp hsp _ (noUnesc_onePass sp hsp v)

/-- The append-style phone loop of `format_vcard` equals the claim-side
`filterMap` description. -/
lemma telLoop_eq_telSpec : ∀ phones, telLoop phones = telSpec phones := by
  intro phones
  induction phones with
  | nil => rfl
  | cons p rest ih =>
      by_cases h : sanitize_phone (some (p.number.getD [])) = []
      · simp [telLoop, telSpec, List.filterMap_cons, h] at ih ⊢
        exact ih
      · simp [telLoop, telSpec, List.filterMap_cons, h] at ih ⊢
        exact ih

lemma splitWsAux_ne_nil_of_acc (m : Str) :
    ∀ acc, acc ≠ [] → splitWsAux acc m ≠ [] := by
  induction m with
  | nil => intro acc h; simp [splitWsAux, h]
  | cons c r ih =>
      intro acc h
      by_cases hw : pws c
      · simp only [splitWsAux, hw, if_pos, if_neg h, ite_true]
        simp
      · simp only [splitWsAux, hw, ite_false]
        exact ih (c :: acc) (by simp)

lemma splitWsAux_ne_nil (m : Str) :
    ∀ acc, (∃ c ∈ m, pws c = false) → splitWsAux acc m ≠ [] := by
  induction m with
  | nil => intro acc h; obtain ⟨c, hc, _⟩ := h; simp at hc
  | cons c r ih =>
      intro acc h
      obtain ⟨w, hw, hwf⟩ := h
      by_cases hc : pws c
      · have hwr : w ∈ r := by
          rcases List.mem_cons.mp hw with rfl | hr
          · rw [hc] at hwf; cases hwf
          · exact hr
        simp only [splitWsAux, hc, ite_true]
        by_cases ha : acc = []
        · rw [if_pos ha]
          exact ih [] ⟨w, hwr, hwf⟩
        · rw [if_neg ha]
          simp
      · simp only [splitWsAux, hc, ite_false]
        exact splitWsAux_ne_nil_of_acc r (c :: acc) (by simp)

lemma strip_has_nonws (l : Str) (h : stripL l ≠ []) :
    ∃ c ∈ stripL l, pws c = false := by
  set d := (l.dropWhile pws).reverse.dropWhile pws with hd
  have hsl : stripL l = d.reverse := rfl
  cases hdc : d with
  | nil => rw [hsl, hdc] at h; simp at h
  | cons a t =>
      have ha : pws a = false := dropWhile_head_false _ a t (hd ▸ hdc)
      refine ⟨a, ?_, ha⟩
      rw [hsl, hdc]
      simp

lemma format_n_field_strip_isSome (l : Str) :
    ∃ nf, format_n_field (stripL l) = some nf := by
  by_cases h : stripL l = []
  · rw [h]; exact ⟨_, rfl⟩
  · have hne : splitWs (stripL l) ≠ [] :=
      splitWsAux_ne_nil _ [] (strip_has_nonws l h)
    rw [format_n_field, if_neg h]
    by_cases hl : (splitWs (stripL l)).length = 1
    · rw [if_pos hl]; exact ⟨_, rfl⟩
    · rw [if_neg hl]
      obtain ⟨p, ps, hps⟩ := List.exists_cons_of_ne_nil hne
      rw [hps]
      rw [List.getLast?_eq_getLast _ (by simp)]
      simp only [List.head?_cons]
      exact ⟨_, rfl⟩

lemma format_vcard_strip_isSome (l : Str) (phones : List PhoneEntry) :
    ∃ s, format_vcard (stripL l) phones = some s := by
  obtain ⟨nf, hnf⟩ := format_n_field_strip_isSome l
  rw [format_vcard, vcardLines, hnf]
  exact ⟨_, rfl⟩

lemma format_vcard_fullName_isSome (cfg : StreamCfg) (n : Str) (phones : List PhoneEntry) :
    ∃ s, format_vcard (fullNameOf cfg n) phones = some s :=
  format_vcard_strip_isSome _ phones

lemma findSome?_constNone {α β : Type} (l : List α) :
    l.findSome? (fun _ => (none : Option β)) = none := by
  induction l with
  | nil => rfl
  | cons a t ih => rw [List.findSome?_cons]; exact ih

lemma heurScan_eq (headers : List Str) :
    ∀ kws : List Str,
      kws.findSome? (fun p => headers.find? (fun h => lowerL h == p))
        = heurScan headers kws := by
  intro kws
  induction kws with
  | nil => rfl
  | cons kw rest ih =>
      rw [List.findSome?_cons, heurScan]
      cases headers.find? (fun h => lowerL h == kw) with
      | none => exact ih
      | some h => rfl

lemma joinSep_cons_of_ne (sep x : Str) (l : List Str) (h : l ≠ []) :
    joinSep sep (x :: l) = x ++ sep ++ joinSep sep l := by
  cases l with
  | nil => cases h rfl
  | cons y t => rfl

lemma joinSep_last_suffix (sep : Str) :
    ∀ (l : List Str) (x : Str), ∃ t, joinSep sep (l ++ [x]) = t ++ x := by
  intro l
  induction l with
  | nil => intro x; exact ⟨[], rfl⟩
  | cons a t ih =>
      intro x
      obtain ⟨u, hu⟩ := ih x
      rw [List.cons_append, joinSep_cons_of_ne sep a (t ++ [x]) (by simp), hu]
      exact ⟨a ++ sep ++ u, by simp⟩

lemma join_last_suffix (suf : Str) :
    ∀ bl : List Str, (∀ b ∈ bl, ∃ t, b = t ++ suf) → bl ≠ [] →
      ∃ t, bl.flatten = t ++ suf := by
  intro bl
  induction bl with
  | nil => intro _ h; cases h rfl
  | cons b rest ih =>
      intro hall _
      cases hrest : rest with
      | nil =>
          subst hrest
          obtain ⟨t, ht⟩ := hall b (by simp)
          exact ⟨t, by simp [ht]⟩
      | cons c cs =>
          subst hrest
          obtain ⟨t, ht⟩ := ih (fun x hx => hall x (by simp [hx])) (by simp)
          exact ⟨b ++ t, by simp [List.flatten_cons, ht]⟩

lemma cfPfx_false (rows : List Row) : ∀ i, cfPfx (fun _ => false) i rows = rows := by
  induction rows with
  | nil => intro i; rfl
  | cons r rs ih => intro i; simp [cfPfx, ih]

lemma cfPfx_take (cancel : Nat → Bool) (k : Nat)
    (h1 : ∀ j, j < k → cancel j = false) (h2 : cancel k = true) :
    ∀ (rows : List Row) (i : Nat), i ≤ k → cfPfx cancel i rows = rows.take (k - i) := by
  intro rows
  induction rows with
  | nil => intro i _; simp [cfPfx]
  | cons r rs ih =>
      intro i hi
      by_cases hik : i = k
      · subst hik
        simp [cfPfx, h2]
      · have hlt : i < k := lt_of_le_of_ne hi hik
        rw [cfPfx, if_neg (by rw [h1 i hlt]; simp)]
        rw [ih (i + 1) hlt]
        have hk : k - i = (k - (i + 1)) + 1 := by omega
        rw [hk]
        rfl

/-- What one streaming pass computes: it never raises, processes exactly
the rows before the first true cancellation check, writes the
concatenated vCard blocks of the qualifying ones among them, counts them,
and reports progress once per processed row. -/
lemma streamLoop_char (cancel : Nat → Bool) (cfg : StreamCfg) (rows : List Row) :
    ∀ i total,
      streamLoop cancel cfg total i rows =
        some ⟨((cfPfx cancel i rows).filter (qual cfg)).length,
              (((cfPfx cancel i rows).filter (qual cfg)).map (rowBlock cfg)).flatten,
              evtsFrom total i (cfPfx cancel i rows)⟩ := by
  induction rows with
  | nil => intro i total; simp [streamLoop, cfPfx, evtsFrom]
  | cons row rest ih =>
      intro i total
      by_cases hc : cancel i
      · simp [streamLoop, cfPfx, hc, evtsFrom]
      · by_cases hp : buildPhones cfg row = []
        · have hq : qual cfg row = false := by simp [qual, hp]
          simp [streamLoop, cfPfx, hc, hp, evtsFrom, ih, hq, List.filter_cons]
        · have hq : qual cfg row = true := by
            cases hb : buildPhones cfg row with
            | nil => exact absurd hb hp
            | cons a t => simp [qual, hb]
          obtain ⟨blk, hblk⟩ := format_vcard_fullName_isSome cfg
            (stripL ((rowGet row cfg.nameField).getD [])) (buildPhones cfg row)
          have hrb : rowBlock cfg row = blk := by rw [rowBlock, hblk]; rfl
          simp [streamLoop, cfPfx, hc, hp, hblk, ih, hq, evtsFrom,
            List.filter_cons, hrb]

lemma truthyIn_some (d : Str) (headers : List Str) :
    truthyIn (some d) headers = true ↔ d ≠ [] ∧ d ∈ headers := by
  simp [truthyIn]

lemma buildPhonesAux_nil (cfg : StreamCfg) (row : Row) :
    ∀ (pfs : List Str) (idx : Nat),
      (∀ pf ∈ pfs, stripL ((rowGet row pf).getD []) = []) →
      buildPhonesAux cfg row idx pfs = [] := by
  intro pfs
  induction pfs with
  | nil => intro idx _; rfl
  | cons pf rest ih =>
      intro idx h
      simp only [buildPhonesAux, h pf (by simp), ite_true, if_pos]
      exact ih (idx + 1) (fun q hq => h q (by simp [hq]))

/-- A row all of whose configured phone columns are empty or missing after
trimming contributes an empty phone list. -/
lemma buildPhones_nil (cfg : StreamCfg) (row : Row)
    (h : ∀ pf ∈ cfg.phoneFields, stripL ((rowGet row pf).getD []) = []) :
    buildPhones cfg row = [] :=
  buildPhonesAux_nil cfg row cfg.phoneFields 0 h

/-- Every vCard block produced by `format_vcard` ends with the
`END:VCARD` line terminated by a newline. -/
lemma format_vcard_end_suffix (fn : Str) (phones : List PhoneEntry) (s : Str)
    (h : format_vcard fn phones = some s) :
    ∃ t, s = t ++ ("END:VCARD\n".toList) := by
  rw [format_vcard] at h
  cases hv : vcardLines fn phones with
  | none => rw [hv] at h; cases h
  | some ls =>
      rw [hv] at h
      have hs : s = joinSep ("\n".toList) ls := by
        cases h; rfl
      rw [vcardLines] at hv
      cases hnf : format_n_field fn with
      | none => rw [hnf] at hv; cases hv
      | some nf =>
          rw [hnf] at hv
          have hls : ls = (("BEGIN:VCARD".toList) :: ("VERSION:3.0".toList)
              :: (("FN:".toList) ++ escape_vcard_value (some fn))
              :: (("N:".toList) ++ escape_vcard_value (some nf))
              :: telLoop phones) ++ [("END:VCARD\n".toList)] := by
            cases hv; rfl
          rw [hs, hls]
          exact joinSep_last_suffix ("\n".toList) _ _

lemma rowBlock_end_suffix (cfg : StreamCfg) (row : Row) :
    ∃ t, rowBlock cfg row = t ++ ("END:VCARD\n".toList) := by
  obtain ⟨s, hs⟩ := format_vcard_fullName_isSome cfg
    (stripL ((rowGet row cfg.nameField).getD [])) (buildPhones cfg row)
  obtain ⟨t, ht⟩ := format_vcard_end_suffix _ _ _ hs
  exact ⟨t, by rw [rowBlock, hs, Option.getD_some, ht]⟩

/-- A pass that is never cancelled processes every row. -/
lemma stream_nocancel (cfg : StreamCfg) (rows : List Row) :
    write_vcards_stream (fun _ => false) cfg rows =
      some ⟨(rows.filter (qual cfg)).length,
            ((rows.filter (qual cfg)).map (rowBlock cfg)).flatten,
            evtsFrom rows.length 1 rows⟩ := by
  rw [write_vcards_stream, streamLoop_char, cfPfx_false]

lemma filter_rev (p : Char → Bool) (l : Str) :
    (l.reverse).filter p = (l.filter p).reverse := by
  induction l with
  | nil => rfl
  | cons c r ih =>
      rw [List.reverse_cons, List.filter_append, List.filter_cons, ih]
      by_cases hc : p c
      · simp [hc]
      · simp [hc]

lemma filter_dropWhile (p : Char → Bool) (hws : ∀ c, pws c = true → p c = false)
    (l : Str) : (l.dropWhile pws).filter p = l.filter p := by
  induction l with
  | nil => rfl
  | cons c r ih =>
      by_cases hw : pws c
      · rw [List.dropWhile_cons_of_pos hw, ih, List.filter_cons]
        simp [hws c hw]
      · rw [List.dropWhile_cons_of_neg hw]

/-- Filtering by a predicate that rejects whitespace is unaffected by the
leading/trailing strip. -/
lemma filter_stripL (p : Char → Bool) (hws : ∀ c, pws c = true → p c = false)
    (l : Str) : (stripL l).filter p = l.filter p := by
  rw [stripL, filter_rev, filter_dropWhile p hws, filter_rev, List.reverse_reverse,
    filter_dropWhile p hws]

lemma pws_not_keepPhone (c : Char) (hw : pws c = true) : keepPhone c = false := by
  have hcases : c = ' ' ∨ c = '\t' ∨ c = '\n' ∨ c = '\r' ∨ c = '\x0b' ∨ c = '\x0c' := by
    simp only [pws, Bool.or_eq_true, decide_eq_true_eq] at hw
    tauto
  rcases hcases with rfl | rfl | rfl | rfl | rfl | rfl <;> decide

/-- Boolean test: `pat` is an initial segment of the second list. -/
def leadsL : Str → Str → Bool
  | [], _ => true
  | _ :: _, [] => false
  | a :: ps, b :: l => a == b && leadsL ps l

/-- Boolean test: `pat` occurs contiguously somewhere in the second list. -/
def hasInfix (pat : Str) : Str → Bool
  | [] => leadsL pat []
  | c :: rest => leadsL pat (c :: rest) || hasInfix pat rest

/-- Configuration used by concrete streaming instances: name column
`name`, single phone column `phone`, no labels, no prefix/postfix. -/
def wCfg : StreamCfg := ⟨("name".toList), [("phone".toList)], none, [], []⟩

/-- A concrete two-column row. -/
def wRow (n p : String) : Row :=
  [(("name".toList), n.toList), (("phone".toList), p.toList)]

/-- A concrete ten-row source; row 2 has an empty phone value. -/
def wRows : List Row :=
  [wRow ("A") ("7"), wRow ("B") (""), wRow ("C") ("8"), wRow ("D") ("9"),
   wRow ("E") ("1"), wRow ("F") ("2"), wRow ("G") ("3"), wRow ("H") ("4"),
   wRow ("I") ("5"), wRow ("J") ("6")]

/-- C1 counterexample: for fullName `"Jo Smith"` the joined (unescaped) N
value is `"Smith;Jo;;;"`; the code escapes that already-joined string, so
the final N value is `"Smith\;Jo\;\;\;"`, in which no semicolon is
unescaped — the four separator semicolons inserted by the join do NOT
appear unescaped, contradicting the claim; in particular the code's N
value differs from the escape-each-part-then-join reading in which the
separators stay literal. -/
theorem spec_C1_cex :
    format_n_field ("Jo Smith".toList) = some ("Smith;Jo;;;".toList) ∧
    escape_vcard_value (some ("Smith;Jo;;;".toList)) = ("Smith\\;Jo\\;\\;\\;".toList) ∧
    noUnescFrom ';' true ("Smith\\;Jo\\;\\;\\;".toList) = true ∧
    escape_vcard_value (some ("Smith;Jo;;;".toList)) ≠
      joinSep (";".toList)
        [escape_vcard_value (some ("Smith".toList)),
         escape_vcard_value (some ("Jo".toList)), [], [], []] := by
  refine ⟨by decide, by decide, by decide, by decide⟩

/-- C1 amended: `format_vcard` builds the N value by joining the five
name parts with `;` and then escaping the already-joined string, so ALL
semicolons in the final N value — the four join separators as well as any
semicolon or comma from the original name tokens — appear escaped
(preceded by an odd run of backslashes). -/
theorem spec_C1_amended :
    (∀ (fn nf : Str), format_n_field fn = some nf →
        noUnescFrom ';' true (escape_vcard_value (some nf)) = true ∧
        noUnescFrom ',' true (escape_vcard_value (some nf)) = true) ∧
    escape_vcard_value (some ("Smith;Jo;;;".toList)) = ("Smith\\;Jo\\;\\;\\;".toList) :=
  ⟨fun _ nf _ =>
      ⟨noUnesc_escape ';' (Or.inl rfl) nf, noUnesc_escape ',' (Or.inr rfl) nf⟩,
    by decide⟩

/-- Witness for C1 amended at fullName `"Jo Smith"`. -/
theorem spec_C1_amended_witness :
    noUnescFrom ';' true (escape_vcard_value (some ("Smith;Jo;;;".toList))) = true :=
  (spec_C1_amended.1 ("Jo Smith".toList) ("Smith;Jo;;;".toList) (by decide)).1

/-- C4 counterexample: a two-row streaming pass produces two complete
blocks with `END:VCARD` immediately followed by the next `BEGIN:VCARD` —
no blank line separates or follows the blocks (the output never contains
two consecutive newlines). -/
theorem spec_C4_cex :
    write_vcards_stream (fun _ => false) wCfg [wRow ("A") ("7"), wRow ("B") ("8")] =
      some ⟨2,
        (("BEGIN:VCARD\nVERSION:3.0\nFN:A\nN:\\;A\\;\\;\\;\nTEL;TYPE=CELL:7\nEND:VCARD\nBEGIN:VCARD\nVERSION:3.0\nFN:B\nN:\\;B\\;\\;\\;\nTEL;TYPE=CELL:8\nEND:VCARD\n").toList),
        [(1, 2), (2, 2)]⟩ ∧
    (hasInfix ("END:VCARD\nBEGIN:VCARD".toList)
      (("BEGIN:VCARD\nVERSION:3.0\nFN:A\nN:\\;A\\;\\;\\;\nTEL;TYPE=CELL:7\nEND:VCARD\nBEGIN:VCARD\nVERSION:3.0\nFN:B\nN:\\;B\\;\\;\\;\nTEL;TYPE=CELL:8\nEND:VCARD\n").toList)
      = true) ∧
    (hasInfix ("\n\n".toList)
      (("BEGIN:VCARD\nVERSION:3.0\nFN:A\nN:\\;A\\;\\;\\;\nTEL;TYPE=CELL:7\nEND:VCARD\nBEGIN:VCARD\nVERSION:3.0\nFN:B\nN:\\;B\\;\\;\\;\nTEL;TYPE=CELL:8\nEND:VCARD\n").toList)
      = false) := by
  refine ⟨by decide, by decide, by decide⟩

/-- C4 amended: every `format_vcard` block ends with the line `END:VCARD`
terminated by a single newline (no following blank line); the output file
of a full pass is the concatenation of the blocks of the qualifying rows,
in order, so it ends with `END:VCARD` and a final newline whenever at
least one record was written, and adjacent blocks are separated by
nothing. -/
theorem spec_C4_amended :
    (∀ (fn : Str) (phones : List PhoneEntry) (s : Str),
        format_vcard fn phones = some s → ∃ t, s = t ++ ("END:VCARD\n".toList)) ∧
    (∀ (cfg : StreamCfg) (rows : List Row),
        write_vcards_stream (fun _ => false) cfg rows =
          some ⟨(rows.filter (qual cfg)).length,
                ((rows.filter (qual cfg)).map (rowBlock cfg)).flatten,
                evtsFrom rows.length 1 rows⟩) ∧
    (∀ (cfg : StreamCfg) (rows : List Row) (res : StreamResult),
        write_vcards_stream (fun _ => false) cfg rows = some res →
        res.written ≠ 0 → ∃ t, res.output = t ++ ("END:VCARD\n".toList)) := by
  refine ⟨format_vcard_end_suffix, stream_nocancel, ?_⟩
  intro cfg rows res h hw
  rw [stream_nocancel] at h
  cases h
  apply join_last_suffix
  · intro b hb
    obtain ⟨row, _, hrow⟩ := List.mem_map.mp hb
    rw [← hrow]
    exact rowBlock_end_suffix cfg row
  · intro hnil
    apply hw
    have : (rows.filter (qual cfg)).map (rowBlock cfg) = [] := hnil
    have hfil : rows.filter (qual cfg) = [] := by
      cases hf : rows.filter (qual cfg) with
      | nil => rfl
      | cons a t => rw [hf] at this; cases this
    simp [hfil]

/-- Witness for C4 amended at a concrete block. -/
theorem spec_C4_amended_witness :
    ∃ t, (("BEGIN:VCARD\nVERSION:3.0\nFN:Ann\nN:\\;Ann\\;\\;\\;\nEND:VCARD\n").toList)
      = t ++ ("END:VCARD\n".toList) :=
  spec_C4_amended.1 ("Ann".toList) [] _ (by decide)

/-- C5: the code slip — on the empty fullName, `format_n_field` returns
the literal `";;;;;"`, five semicolons and hence SIX components, although
its own comment (`family;given;additional;prefix;suffix`) and every other
branch produce five components and four semicolons, as for
`"Jane Q. Public"`. -/
theorem spec_C5_bug :
    format_n_field [] = some (";;;;;".toList) ∧
    ((";;;;;".toList).count ';' = 5) ∧
    format_n_field ("Jane Q. Public".toList) = some ("Public;Jane;Q.;;".toList) ∧
    (("Public;Jane;Q.;;".toList).count ';' = 4) := by
  refine ⟨by decide, by decide, by decide, by decide⟩

/-- C8: `escape_vcard_value` is the ordered composition — backslash
doubling first, then CR and LF to a space, then comma and semicolon
escaping — followed by a trim; absent input yields the empty string; and
because the backslash escape runs first, the sequential replacement
coincides with a single left-to-right per-character pass, so escape
characters inserted by the later steps are never double-escaped. -/
theorem spec_C8 :
    (∀ v : Str, escape_vcard_value (some v)
        = stripL (repC ';' ("\\;".toList) (repC ',' ("\\,".toList)
            (repC '\n' (" ".toList) (repC '\r' (" ".toList)
              (repC '\\' ("\\\\".toList) v)))))) ∧
    escape_vcard_value none = [] ∧
    (∀ v : Str, escape_vcard_value (some v) = stripL (onePassEsc v)) ∧
    escape_vcard_value (some ("a\\b,c;d".toList)) = ("a\\\\b\\,c\\;d".toList) :=
  ⟨fun _ => rfl, rfl, escape_eq_onePass, by decide⟩

/-- C9: `sanitize_phone` keeps exactly the ASCII digits and `+` signs of
its input, in order and multiplicity (the initial strip removes only
whitespace, which the filter would drop anyway); absent input yields the
empty string; `"+1 (555) 123-4567"` becomes `"+15551234567"`. -/
theorem spec_C9 :
    (∀ s : Str, sanitize_phone (some s) = s.filter keepPhone) ∧
    sanitize_phone none = [] ∧
    sanitize_phone (some ("+1 (555) 123-4567".toList)) = ("+15551234567".toList) := by
  refine ⟨?_, rfl, by decide⟩
  intro s
  simp only [sanitize_phone]
  exact filter_stripL keepPhone pws_not_keepPhone s

/-- C2: if the cancellation checks before row `k` all read false and the
check for row `k` reads true, the pass returns normally (`some`, not an
error), exactly the rows before `k` are processed, `records_written`
counts only the qualifying rows among them, the output file holds exactly
the complete blocks already written for those rows, and progress was
reported once per processed row. -/
theorem spec_C2 (cfg : StreamCfg) (rows : List Row) (cancel : Nat → Bool) (k : Nat)
    (hk : 1 ≤ k) (h1 : ∀ j, j < k → cancel j = false) (h2 : cancel k = true) :
    write_vcards_stream cancel cfg rows =
      some ⟨((rows.take (k - 1)).filter (qual cfg)).length,
            (((rows.take (k - 1)).filter (qual cfg)).map (rowBlock cfg)).flatten,
            evtsFrom rows.length 1 (rows.take (k - 1))⟩ := by
  rw [write_vcards_stream, streamLoop_char, cfPfx_take cancel k h1 h2 rows 1 hk]

/-- Witness for C2: a ten-row source whose check first reads true at row 4
processes rows 1-3 only; row 2 has no phone, so two records are written
and the file holds exactly their two complete blocks. -/
theorem spec_C2_witness :
    write_vcards_stream (fun j => decide (4 ≤ j)) wCfg wRows =
      some ⟨2,
        (("BEGIN:VCARD\nVERSION:3.0\nFN:A\nN:\\;A\\;\\;\\;\nTEL;TYPE=CELL:7\nEND:VCARD\nBEGIN:VCARD\nVERSION:3.0\nFN:C\nN:\\;C\\;\\;\\;\nTEL;TYPE=CELL:8\nEND:VCARD\n").toList),
        [(1, 10), (2, 10), (3, 10)]⟩ :=
  (spec_C2 wCfg wRows (fun j => decide (4 ≤ j)) 4 (by decide)
    (by decide) (by decide)).trans (by decide)

/-- C3: an uncancelled row whose configured phone columns are all empty or
missing after trimming emits no record and does not change the written
count or the output, but still produces the progress call
`(rowIndex, total)`, and the loop continues normally with the rest. -/
theorem spec_C3 (cancel : Nat → Bool) (cfg : StreamCfg) (total i : Nat) (row : Row)
    (rest : List Row) (r : StreamResult)
    (hc : cancel i = false)
    (hempty : ∀ pf ∈ cfg.phoneFields, stripL ((rowGet row pf).getD []) = [])
    (hrest : streamLoop cancel cfg total (i + 1) rest = some r) :
    streamLoop cancel cfg total i (row :: rest) =
      some ⟨r.written, r.output, (i, total) :: r.events⟩ := by
  have hp : buildPhones cfg row = [] := buildPhones_nil cfg row hempty
  simp [streamLoop, hc, hp, hrest]

/-- Witness for C3: a single row with an empty phone value is skipped but
reported in progress. -/
theorem spec_C3_witness :
    streamLoop (fun _ => false) wCfg 7 1 [wRow ("Zed") ("")] =
      some ⟨0, [], [(1, 7)]⟩ :=
  (spec_C3 (fun _ => false) wCfg 7 1 (wRow ("Zed") ("")) [] ⟨0, [], []⟩
    (by decide) (by decide) rfl).trans (by decide)

/-- C6: on the non-interactive path, `choose_field` follows exactly the
claimed cascade — exact requested-name match, then the ordered
keyword-list scan with case-insensitive equality (first keyword hit wins),
then the first header — and returns `"Name"` for
`(["Name","Mobile"], "name", "name")` and `"Contact Name"` for
`(["Contact Name","Cell"], "", "name")`. -/
theorem spec_C6 :
    (∀ (headers : List Str) (desired : Option Str) (kind : Str),
        choose_field headers desired kind = resolveFieldSpec headers desired kind) ∧
    choose_field [("Name".toList), ("Mobile".toList)] (some ("name".toList))
        ("name".toList) = some ("Name".toList) ∧
    choose_field [("Contact Name".toList), ("Cell".toList)] (some [])
        ("name".toList) = some ("Contact Name".toList) := by
  refine ⟨?_, by decide, by decide⟩
  intro headers desired kind
  have hpk : prefs kind = claimKeywords kind := rfl
  cases desired with
  | none =>
      have hr : resolveFieldSpec headers none kind =
          match heurScan headers (claimKeywords kind) with
          | some h => some h
          | none => headers.head? := rfl
      rw [hr]
      simp only [choose_field, heurScan_eq, hpk]
      rw [if_neg (by rw [show truthyIn none headers = false from rfl]; simp)]
  | some d =>
      have hr : resolveFieldSpec headers (some d) kind =
          if d ≠ [] ∧ d ∈ headers then some d
          else
            match heurScan headers (claimKeywords kind) with
            | some h => some h
            | none => headers.head? := rfl
      rw [hr]
      simp only [choose_field, heurScan_eq, hpk]
      by_cases h1 : d ≠ [] ∧ d ∈ headers
      · rw [if_pos ((truthyIn_some d headers).mpr h1), if_pos h1]
      · rw [if_neg (fun hc => h1 ((truthyIn_some d headers).mp hc)), if_neg h1]

/-- C7: in `format_vcard`, the TEL section is exactly the in-order image
of the phone entries with non-empty sanitized numbers under
`TEL;TYPE=<LABEL>:<number>` with the label upper-cased and defaulting to
`CELL`; for `("Jo, Smith", [{number:"555-1212", label:"home"}])` the
block's lines include `FN:Jo\, Smith` and `TEL;TYPE=HOME:5551212`. -/
theorem spec_C7 :
    (∀ (fn : Str) (phones : List PhoneEntry) (nf : Str),
        format_n_field fn = some nf →
        vcardLines fn phones =
          some ((("BEGIN:VCARD".toList) :: ("VERSION:3.0".toList)
              :: (("FN:".toList) ++ escape_vcard_value (some fn))
              :: (("N:".toList) ++ escape_vcard_value (some nf))
              :: telSpec phones) ++ [("END:VCARD\n".toList)])) ∧
    vcardLines ("Jo, Smith".toList)
        [⟨some ("555-1212".toList), some ("home".toList)⟩] =
      some [("BEGIN:VCARD".toList), ("VERSION:3.0".toList),
            ("FN:Jo\\, Smith".toList), ("N:Smith\\;Jo\\,\\;\\;\\;".toList),
            ("TEL;TYPE=HOME:5551212".toList), ("END:VCARD\n".toList)] := by
  constructor
  · intro fn phones nf h
    rw [vcardLines, h, telLoop_eq_telSpec]
  · decide

/-- Witness for C7 at fullName `"Ann"` with no phones. -/
theorem spec_C7_witness :
    vcardLines ("Ann".toList) [] =
      some ((("BEGIN:VCARD".toList) :: ("VERSION:3.0".toList)
          :: (("FN:".toList) ++ escape_vcard_value (some ("Ann".toList)))
          :: (("N:".toList) ++ escape_vcard_value (some (";Ann;;;".toList)))
          :: telSpec []) ++ [("END:VCARD\n".toList)]) :=
  spec_C7.1 ("Ann".toList) [] (";Ann;;;".toList) (by decide)

/-- C10: with an empty column list, the non-interactive path of
`choose_field` always falls through to the `headers[0]` access, which
fails (modelled `none`); with a non-empty column list it always returns
a column. -/
theorem spec_C10 :
    (∀ (desired : Option Str) (kind : Str), choose_field [] desired kind = none) ∧
    (∀ (headers : List Str) (desired : Option Str) (kind : Str), headers ≠ [] →
        ∃ h, choose_field headers desired kind = some h) := by
  constructor
  · intro desired kind
    have ht : truthyIn desired [] = false := by
      cases desired with
      | none => rfl
      | some d => simp [truthyIn]
    simp only [choose_field, ht, Bool.false_eq_true, if_false]
    simp [List.find?_nil, findSome?_constNone]
  · intro headers desired kind hne
    cases headers with
    | nil => cases hne rfl
    | cons a t =>
        unfold choose_field
        by_cases ht : truthyIn desired (a :: t) = true
        · rw [if_pos ht]
          cases desired with
          | none => simp [truthyIn] at ht
          | some d => exact ⟨d, rfl⟩
        · rw [if_neg ht]
          cases hscan : (prefs kind).findSome?
              (fun p => (a :: t).find? (fun h => lowerL h == p)) with
          | some h2 => exact ⟨h2, rfl⟩
          | none => exact ⟨a, rfl⟩

/-- Witness for C10 with one column. -/
theorem spec_C10_witness :
    ∃ h, choose_field [("A".toList)] none ("x".toList) = some h :=
  spec_C10.2 [("A".toList)] none ("x".toList) (by simp)

end VcfMaker
